import Mathlib

/-!
Verification of the synthetic order generator `ws_feeder.py`.

The script connects to a book-ticker stream, and for each received price
update emits a burst of synthetic orders around the mid-price, stopping on a
configured order-count limit or duration limit, then writes an `EXIT` line.

Shallow embedding choices:
* Python floats are modelled as exact rationals (`ℚ`); `round(x, 2)` is
  modelled as round-half-to-even on the exact rational, scaled by 100.
* The single global `random` generator is modelled as a stream
  `Nat → ℚ` of raw outputs (each call to an RNG primitive consumes exactly
  one raw value) together with a cursor and a log of which draws were made,
  so that draw-order properties are expressible.  Raw values of a real
  generator lie in `[0,1)`; that fact is the hypothesis `RNG.Valid`.
* The websocket feed is modelled as a finite list of events: a decoded
  price update, a message that fails decoding (`DecodeError` in the spec:
  `json.loads`/field extraction raising), or closure of the stream
  (`StreamClosedError`: `ws.recv` raising `ConnectionClosed`).
* `time.time()` is modelled by a start value and a stream `Nat → ℚ` of
  clock readings, one per iteration of the main loop.
* Output is modelled structurally as a list of `OutputLine`s plus a
  rendering function to the actual bytes written to stdout.
-/

namespace WsFeeder

/-- A decoded book-ticker message: best bid `b` and best ask `a`
(`float(data["b"])`, `float(data["a"])` in the source). -/
structure PriceUpdate where
  b : ℚ
  a : ℚ
  deriving DecidableEq, Repr

/-- One interaction with the websocket per loop iteration: a message that
decodes to a `PriceUpdate`, a malformed message (raises a decode error), or
closure of the stream (raises the connection-closed error on `recv`). -/
inductive FeedEvent where
  | update (u : PriceUpdate)
  | malformed
  | closed
  deriving DecidableEq, Repr

/-- Which RNG call a raw draw belongs to: the side draw
(`random.random()`), the jitter draw (`random.uniform(-8, 8)`), or the
quantity draw (`random.randint(1, 5)`). -/
inductive DrawKind where
  | sideDraw
  | jitterDraw
  | qtyDraw
  deriving DecidableEq, Repr

/-- The state of the global `random` generator: the stream of raw values it
will produce (determined by the seed), a cursor, and a log of the draws made
so far (instrumentation used to state draw-order properties). -/
structure RNG where
  stream : ℕ → ℚ
  idx : ℕ
  log : List DrawKind

/-- Consume one raw value from the generator, logging the kind of draw. -/
def RNG.draw (g : RNG) (k : DrawKind) : ℚ × RNG :=
  (g.stream g.idx, ⟨g.stream, g.idx + 1, g.log ++ [k]⟩)

/-- A real generator's raw outputs lie in `[0, 1)`. -/
def RNG.Valid (g : RNG) : Prop :=
  ∀ n, 0 ≤ g.stream n ∧ g.stream n < 1

/-- `random.random()`: one raw value in `[0,1)`. -/
def pyRandom (k : DrawKind) (g : RNG) : ℚ × RNG :=
  g.draw k

/-- `random.uniform(a, b)`: `a + (b - a) * random()`. -/
def pyUniform (a b : ℚ) (k : DrawKind) (g : RNG) : ℚ × RNG :=
  let (x, g') := g.draw k
  (a + (b - a) * x, g')

/-- `random.randint(lo, hi)`: a uniform integer in `[lo, hi]`, one raw
value consumed. -/
def pyRandint (lo hi : ℕ) (k : DrawKind) (g : RNG) : ℕ × RNG :=
  let (x, g') := g.draw k
  (lo + (⌊x * ((hi : ℚ) - lo + 1)⌋).toNat, g')

/-- Round-half-to-even to an integer, as Python's `round` does. -/
def pyRoundInt (q : ℚ) : ℤ :=
  let f := ⌊q⌋
  let r := q - f
  if r < 1 / 2 then f
  else if 1 / 2 < r then f + 1
  else if 2 ∣ f then f else f + 1

/-- `round(x, 2)`: round to two decimal places, half to even. -/
def pyRound2 (q : ℚ) : ℚ :=
  (pyRoundInt (q * 100) : ℚ) / 100

/-- Order side. -/
inductive Side where
  | buy
  | sell
  deriving DecidableEq, Repr

/-- One line written to stdout: either a synthetic order or the terminal
`EXIT` sentinel. -/
inductive OutputLine where
  | order (side : Side) (price : ℚ) (qty : ℕ)
  | exit
  deriving DecidableEq, Repr

/-- Whether a line is an order line. -/
def OutputLine.isOrder : OutputLine → Bool
  | .order _ _ _ => true
  | .exit => false

/-- How the main loop of `run` ended.
`normal`: a stop condition broke the loop (the `EXIT` write is reached).
`streamClosed`: `ws.recv` raised; the exception propagates out of `run`.
`decodeError`: `json.loads`/field access raised; propagates out of `run`.
`blocked`: the modelled feed prefix was exhausted while the loop was still
running (the real process would be blocked in `recv`). -/
inductive RunEnd where
  | normal
  | streamClosed
  | decodeError
  | blocked
  deriving DecidableEq, Repr

/-- Configuration surface of `run` that affects the output.  `symbol` only
changes the URL and `rate` only the inter-burst sleep, so neither appears in
the output model. -/
structure Config where
  burst : ℕ
  limit : Option ℕ
  duration : Option ℚ
  deriving DecidableEq, Repr

/-- `if duration and (time.time() - start) >= duration`: Python's truthiness
makes `None` and `0` skip the check. -/
def durStop (duration : Option ℚ) (now start : ℚ) : Bool :=
  match duration with
  | none => false
  | some d => decide (d ≠ 0) && decide (now - start ≥ d)

/-- `if limit and sent >= limit`: Python's truthiness makes `None` and `0`
skip the check. -/
def limStop (limit : Option ℕ) (sent : ℕ) : Bool :=
  match limit with
  | none => false
  | some n => decide (n ≠ 0) && decide (sent ≥ n)

/-- One synthetic order, as built in the body of the burst loop:
`side` from `random.random() < 0.5`, then `jitter_bps` from
`random.uniform(-8, 8)`, then `price = round(mid * (1 + jitter_bps/10000), 2)`,
then `qty` from `random.randint(1, 5)`. -/
def emitOrder (mid : ℚ) (g : RNG) : OutputLine × RNG :=
  let (x, g1) := pyRandom .sideDraw g
  let side := if x < 1 / 2 then Side.buy else Side.sell
  let (jitterBps, g2) := pyUniform (-8) 8 .jitterDraw g1
  let price := pyRound2 (mid * (1 + jitterBps / 10000))
  let (qty, g3) := pyRandint 1 5 .qtyDraw g2
  (OutputLine.order side price qty, g3)

/-- `for _ in range(burst)`: emit `burst` orders for one mid-price. -/
def emitBurst : ℕ → ℚ → RNG → List OutputLine × RNG
  | 0, _, g => ([], g)
  | n + 1, mid, g =>
    let eo := emitOrder mid g
    let rest := emitBurst n mid eo.2
    (eo.1 :: rest.1, rest.2)

/-- Result of the main `while True` loop: the order lines written inside the
loop, how the loop ended, the value of the `sent` counter observed at each
stop-condition check (loop head), and the final counter value. -/
structure LoopOut where
  lines : List OutputLine
  stop : RunEnd
  checks : List ℕ
  sent : ℕ
  deriving Repr

/-- The `while True` loop of `run`: check the duration limit, then the count
limit; otherwise receive the next feed event; on a decoded update emit a
burst of `cfg.burst` orders and add `burst` to `sent` (the source increments
`sent` once per order, but only reads it at the loop head).  `times k` is
the `time.time()` reading at the `k`-th iteration's check. -/
def runLoop (cfg : Config) (times : ℕ → ℚ) (start : ℚ) :
    List FeedEvent → RNG → ℕ → ℕ → LoopOut
  | events, g, sent, k =>
    if durStop cfg.duration (times k) start then ⟨[], .normal, [sent], sent⟩
    else if limStop cfg.limit sent then ⟨[], .normal, [sent], sent⟩
    else
      match events with
      | [] => ⟨[], .blocked, [sent], sent⟩
      | .closed :: _ => ⟨[], .streamClosed, [sent], sent⟩
      | .malformed :: _ => ⟨[], .decodeError, [sent], sent⟩
      | .update u :: rest =>
        let mid := (u.b + u.a) / 2
        let eb := emitBurst cfg.burst mid g
        let out := runLoop cfg times start rest eb.2 (sent + cfg.burst) (k + 1)
        ⟨eb.1 ++ out.lines, out.stop, sent :: out.checks, out.sent⟩

/-- The whole of `run`: the loop, then — only when the loop exits via
`break`, since the `EXIT` write sits after the `async with` block and not in
a `finally` — the `EXIT` sentinel.  An exception raised inside the loop
propagates and skips the sentinel. -/
def run (cfg : Config) (times : ℕ → ℚ) (start : ℚ) (events : List FeedEvent)
    (g : RNG) : List OutputLine × RunEnd :=
  let lo := runLoop cfg times start events g 0 0
  match lo.stop with
  | .normal => (lo.lines ++ [OutputLine.exit], .normal)
  | e => (lo.lines, e)

/-- `"BUY"` / `"SELL"`. -/
def Side.render : Side → String
  | .buy => "BUY"
  | .sell => "SELL"

/-- Python's `str` on a float that is an exact multiple of `0.01` of modest
magnitude (the result of `round(x, 2)`): the shortest decimal that
round-trips, i.e. the value with trailing fractional zeros dropped but at
least one fractional digit shown. -/
def renderPrice (q : ℚ) : String :=
  let sign := if q < 0 then "-" else ""
  let n : ℕ := (⌊|q| * 100⌋).toNat
  let whole := n / 100
  let frac := n % 100
  let fracStr :=
    if frac = 0 then "0"
    else if frac % 10 = 0 then String.singleton (Nat.digitChar (frac / 10))
    else if frac < 10 then "0" ++ String.singleton (Nat.digitChar frac)
    else String.mk [Nat.digitChar (frac / 10), Nat.digitChar (frac % 10)]
  sign ++ toString whole ++ "." ++ fracStr

/-- The bytes of one stdout line: `f"{side} {price} {qty}\n"` for an order,
`"EXIT\n"` for the sentinel. -/
def renderLine : OutputLine → String
  | .order s p q => s.render ++ " " ++ renderPrice p ++ " " ++ toString q ++ "\n"
  | .exit => "EXIT\n"

/-- The full byte stream written to stdout. -/
def renderOutput (ls : List OutputLine) : String :=
  String.join (ls.map renderLine)

/-- Number of order lines (non-sentinel lines) in an output. -/
def orderCount (ls : List OutputLine) : ℕ :=
  (ls.filter OutputLine.isOrder).length

/-- Rendering of a price with exactly two fractional digits, following the
spec's words ("PRICE is decimal with exactly 2 fractional digits"); used to
compare the spec's output format with the one the source produces. -/
def renderPriceSpec (q : ℚ) : String :=
  let sign := if q < 0 then "-" else ""
  let n : ℕ := (⌊|q| * 100⌋).toNat
  let whole := n / 100
  let frac := n % 100
  sign ++ toString whole ++ "." ++
    String.mk [Nat.digitChar (frac / 10), Nat.digitChar (frac % 10)]

end WsFeeder

namespace WsFeeder

/-! ### Basic lemmas about the RNG primitives and the burst algorithm -/

theorem emitOrder_eq (mid : ℚ) (g : RNG) :
    emitOrder mid g =
      (OutputLine.order
          (if g.stream g.idx < 1 / 2 then Side.buy else Side.sell)
          (pyRound2 (mid * (1 + (-8 + 16 * g.stream (g.idx + 1)) / 10000)))
          (1 + (⌊g.stream (g.idx + 2) * 5⌋).toNat),
        ⟨g.stream, g.idx + 3, g.log ++ [DrawKind.sideDraw, DrawKind.jitterDraw, DrawKind.qtyDraw]⟩) := by
  simp only [emitOrder, pyRandom, pyUniform, pyRandint, RNG.draw]
  norm_num

theorem emitBurst_stream (n : ℕ) (mid : ℚ) (g : RNG) :
    (emitBurst n mid g).2.stream = g.stream := by
  induction n generalizing g with
  | zero => rfl
  | succ m ih =>
    simp only [emitBurst, emitOrder_eq]
    exact ih _

theorem emitBurst_log (n : ℕ) (mid : ℚ) (g : RNG) :
    (emitBurst n mid g).2.log =
      g.log ++ (List.replicate n
        [DrawKind.sideDraw, DrawKind.jitterDraw, DrawKind.qtyDraw]).flatten := by
  induction n generalizing g with
  | zero => simp [emitBurst]
  | succ m ih =>
    simp only [emitBurst, emitOrder_eq, List.replicate_succ, List.flatten_cons]
    rw [ih]
    simp

theorem emitBurst_length (n : ℕ) (mid : ℚ) (g : RNG) :
    (emitBurst n mid g).1.length = n := by
  induction n generalizing g with
  | zero => rfl
  | succ m ih =>
    simp only [emitBurst, List.length_cons]
    rw [ih]

theorem emitBurst_isOrder (n : ℕ) (mid : ℚ) (g : RNG) :
    ∀ l ∈ (emitBurst n mid g).1, l.isOrder = true := by
  induction n generalizing g with
  | zero => intro l hl; simp [emitBurst] at hl
  | succ m ih =>
    intro l hl
    simp only [emitBurst, List.mem_cons] at hl
    rcases hl with h | h
    · rw [h, emitOrder_eq]; rfl
    · exact ih _ l h

theorem emitBurst_orderCount (n : ℕ) (mid : ℚ) (g : RNG) :
    orderCount (emitBurst n mid g).1 = n := by
  unfold orderCount
  rw [List.filter_eq_self.mpr (emitBurst_isOrder n mid g), emitBurst_length]

/-! ### Rounding lemmas -/

theorem pyRoundInt_bounds (q : ℚ) :
    q - 1 / 2 ≤ (pyRoundInt q : ℚ) ∧ (pyRoundInt q : ℚ) ≤ q + 1 / 2 := by
  have hf : (⌊q⌋ : ℚ) ≤ q := Int.floor_le q
  have hf1 : q < ⌊q⌋ + 1 := Int.lt_floor_add_one q
  simp only [pyRoundInt]
  split_ifs with h1 h2 h3 <;> push_cast <;> constructor <;> linarith

theorem pyRound2_bounds (q : ℚ) : |pyRound2 q - q| ≤ 1 / 200 := by
  obtain ⟨h1, h2⟩ := pyRoundInt_bounds (q * 100)
  rw [abs_le]
  unfold pyRound2
  constructor <;> linarith

theorem pyRoundInt_pos (q : ℚ) (hq : 1 / 2 < q) : 1 ≤ pyRoundInt q := by
  have hq0 : (0 : ℚ) < q := by linarith
  have hf0 : 0 ≤ ⌊q⌋ := Int.floor_nonneg.mpr hq0.le
  have hf : (⌊q⌋ : ℚ) ≤ q := Int.floor_le q
  simp only [pyRoundInt]
  split_ifs with h1 h2 h3
  · have : (0 : ℚ) < (⌊q⌋ : ℚ) := by linarith
    exact_mod_cast this
  · omega
  · have h4 : q - ⌊q⌋ = 1 / 2 := by linarith
    have : (0 : ℚ) < (⌊q⌋ : ℚ) := by linarith
    exact_mod_cast this
  · omega

theorem pyRound2_pos (q : ℚ) (hq : 1 / 200 < q) : 0 < pyRound2 q := by
  have h1 : 1 ≤ pyRoundInt (q * 100) := pyRoundInt_pos _ (by linarith)
  have h2 : (1 : ℚ) ≤ (pyRoundInt (q * 100) : ℚ) := by exact_mod_cast h1
  unfold pyRound2
  linarith

end WsFeeder

namespace WsFeeder

/-! ### Lemmas about the main loop -/

theorem run_def (cfg : Config) (times : ℕ → ℚ) (start : ℚ)
    (events : List FeedEvent) (g : RNG) :
    run cfg times start events g =
      (if (runLoop cfg times start events g 0 0).stop = RunEnd.normal
        then (runLoop cfg times start events g 0 0).lines ++ [OutputLine.exit]
        else (runLoop cfg times start events g 0 0).lines,
       (runLoop cfg times start events g 0 0).stop) := by
  unfold run
  cases h : (runLoop cfg times start events g 0 0).stop <;> simp [h]

theorem runLoop_no_exit (cfg : Config) (times : ℕ → ℚ) (start : ℚ) :
    ∀ (events : List FeedEvent) (g : RNG) (sent k : ℕ),
      OutputLine.exit ∉ (runLoop cfg times start events g sent k).lines := by
  intro events
  induction events with
  | nil =>
    intro g sent k
    unfold runLoop
    split_ifs <;> simp
  | cons e rest ih =>
    intro g sent k
    unfold runLoop
    split_ifs with h1 h2
    · simp
    · simp
    · cases e with
      | closed => simp
      | malformed => simp
      | update u =>
        dsimp only
        rw [List.mem_append, not_or]
        refine ⟨fun hmem => ?_, ih _ _ _⟩
        have h := emitBurst_isOrder cfg.burst ((u.b + u.a) / 2) g _ hmem
        simp [OutputLine.isOrder] at h

end WsFeeder

namespace WsFeeder

theorem RNG.Valid.of_stream_eq {g g' : RNG} (h : g'.stream = g.stream)
    (hg : g.Valid) : g'.Valid := by
  intro n
  rw [h]
  exact hg n

theorem emitOrder_valid {g : RNG} (mid : ℚ) (hg : g.Valid) :
    (emitOrder mid g).2.Valid :=
  RNG.Valid.of_stream_eq (by rw [emitOrder_eq]) hg

theorem emitBurst_valid {g : RNG} (n : ℕ) (mid : ℚ) (hg : g.Valid) :
    (emitBurst n mid g).2.Valid :=
  RNG.Valid.of_stream_eq (emitBurst_stream n mid g) hg

theorem runLoop_congr (cfg cfg' : Config) (times : ℕ → ℚ) (start : ℚ)
    (hb : cfg.burst = cfg'.burst)
    (hd : ∀ now, durStop cfg.duration now start = durStop cfg'.duration now start)
    (hl : ∀ s, limStop cfg.limit s = limStop cfg'.limit s) :
    ∀ (events : List FeedEvent) (g : RNG) (sent k : ℕ),
      runLoop cfg times start events g sent k =
        runLoop cfg' times start events g sent k := by
  intro events
  induction events with
  | nil =>
    intro g sent k
    unfold runLoop
    rw [hd, hl]
  | cons e rest ih =>
    intro g sent k
    unfold runLoop
    rw [hd, hl]
    cases e with
    | closed => rfl
    | malformed => rfl
    | update u =>
      dsimp only
      rw [hb, ih]

theorem runLoop_times_indep (cfg : Config) (hdn : cfg.duration = none)
    (times times' : ℕ → ℚ) (start start' : ℚ) :
    ∀ (events : List FeedEvent) (g : RNG) (sent : ℕ) (k k' : ℕ),
      runLoop cfg times start events g sent k =
        runLoop cfg times' start' events g sent k' := by
  intro events
  induction events with
  | nil =>
    intro g sent k k'
    unfold runLoop
    rw [hdn]
    rfl
  | cons e rest ih =>
    intro g sent k k'
    unfold runLoop
    rw [hdn]
    cases e with
    | closed => rfl
    | malformed => rfl
    | update u =>
      dsimp only
      rw [ih _ _ _ (k' + 1)]
      rfl

end WsFeeder

namespace WsFeeder

/-! ### Per-order and per-run shape of the emitted orders -/

theorem emitOrder_spec (mid : ℚ) (g : RNG) (hg : g.Valid) :
    ∃ (s : Side) (j : ℚ) (q : ℕ),
      (emitOrder mid g).1 = OutputLine.order s (pyRound2 (mid * (1 + j / 10000))) q ∧
      -8 ≤ j ∧ j ≤ 8 ∧ 1 ≤ q ∧ q ≤ 5 := by
  obtain ⟨h0, h1⟩ := hg (g.idx + 1)
  obtain ⟨h0', h1'⟩ := hg (g.idx + 2)
  refine ⟨if g.stream g.idx < 1 / 2 then Side.buy else Side.sell,
    -8 + 16 * g.stream (g.idx + 1),
    1 + (⌊g.stream (g.idx + 2) * 5⌋).toNat,
    ?_, by linarith, by linarith, by omega, ?_⟩
  · rw [emitOrder_eq]
  · have hlt : ⌊g.stream (g.idx + 2) * 5⌋ < 5 := by
      rw [Int.floor_lt]
      push_cast
      linarith
    omega

theorem emitBurst_spec (n : ℕ) (mid : ℚ) (g : RNG) (hg : g.Valid) :
    ∀ l ∈ (emitBurst n mid g).1,
      ∃ (s : Side) (j : ℚ) (q : ℕ),
        l = OutputLine.order s (pyRound2 (mid * (1 + j / 10000))) q ∧
        -8 ≤ j ∧ j ≤ 8 ∧ 1 ≤ q ∧ q ≤ 5 := by
  induction n generalizing g with
  | zero => intro l hl; simp [emitBurst] at hl
  | succ m ih =>
    intro l hl
    simp only [emitBurst, List.mem_cons] at hl
    rcases hl with h | h
    · subst h
      exact emitOrder_spec mid g hg
    · exact ih (emitOrder mid g).2 (emitOrder_valid mid hg) l h

theorem runLoop_spec (cfg : Config) (times : ℕ → ℚ) (start : ℚ) :
    ∀ (events : List FeedEvent) (g : RNG) (sent k : ℕ), g.Valid →
      ∀ l ∈ (runLoop cfg times start events g sent k).lines,
        ∃ u, FeedEvent.update u ∈ events ∧
          ∃ (s : Side) (j : ℚ) (q : ℕ),
            l = OutputLine.order s (pyRound2 ((u.b + u.a) / 2 * (1 + j / 10000))) q ∧
            -8 ≤ j ∧ j ≤ 8 ∧ 1 ≤ q ∧ q ≤ 5 := by
  intro events
  induction events with
  | nil =>
    intro g sent k hg l hl
    unfold runLoop at hl
    split_ifs at hl <;> simp at hl
  | cons e rest ih =>
    intro g sent k hg l hl
    unfold runLoop at hl
    split_ifs at hl with h1 h2
    · simp at hl
    · simp at hl
    · cases e with
      | closed => simp at hl
      | malformed => simp at hl
      | update u =>
        dsimp only at hl
        rw [List.mem_append] at hl
        rcases hl with h | h
        · obtain ⟨s, j, q, rfl, hj⟩ := emitBurst_spec cfg.burst _ g hg l h
          exact ⟨u, by simp, s, j, q, rfl, hj⟩
        · obtain ⟨u', hu', rest'⟩ :=
            ih (emitBurst cfg.burst ((u.b + u.a) / 2) g).2 (sent + cfg.burst)
              (k + 1) (emitBurst_valid cfg.burst _ hg) l h
          exact ⟨u', by simp [hu'], rest'⟩

theorem mem_run_order {cfg : Config} {times : ℕ → ℚ} {start : ℚ}
    {events : List FeedEvent} {g : RNG} {s : Side} {p : ℚ} {q : ℕ}
    (hm : OutputLine.order s p q ∈ (run cfg times start events g).1) :
    OutputLine.order s p q ∈ (runLoop cfg times start events g 0 0).lines := by
  rw [run_def] at hm
  dsimp only at hm
  split_ifs at hm with h
  · rcases List.mem_append.mp hm with h' | h'
    · exact h'
    · simp at h'
  · exact hm

end WsFeeder

namespace WsFeeder

/-! ### Counting lemmas for the stop-condition analysis -/

theorem orderCount_append (l1 l2 : List OutputLine) :
    orderCount (l1 ++ l2) = orderCount l1 + orderCount l2 := by
  unfold orderCount
  rw [List.filter_append, List.length_append]

theorem limStop_some {N sent : ℕ} (hN : 1 ≤ N) :
    limStop (some N) sent = decide (N ≤ sent) := by
  simp only [limStop, ge_iff_le]
  rw [decide_eq_true (by omega : N ≠ 0), Bool.true_and]

theorem runLoop_checks (cfg : Config) (times : ℕ → ℚ) (start : ℚ) :
    ∀ (events : List FeedEvent) (g : RNG) (sent k : ℕ),
      cfg.burst ∣ sent →
      ∀ c ∈ (runLoop cfg times start events g sent k).checks, cfg.burst ∣ c := by
  intro events
  induction events with
  | nil =>
    intro g sent k hdvd c hc
    unfold runLoop at hc
    split_ifs at hc <;> simp at hc <;> simpa [hc] using hdvd
  | cons e rest ih =>
    intro g sent k hdvd c hc
    unfold runLoop at hc
    split_ifs at hc with h1 h2
    · simp at hc; simpa [hc] using hdvd
    · simp at hc; simpa [hc] using hdvd
    · cases e with
      | closed => simp at hc; simpa [hc] using hdvd
      | malformed => simp at hc; simpa [hc] using hdvd
      | update u =>
        dsimp only at hc
        rcases List.mem_cons.mp hc with h | h
        · simpa [h] using hdvd
        · exact ih _ _ _ (hdvd.add (dvd_refl _)) c h

theorem runLoop_count (cfg : Config) (times : ℕ → ℚ) (start : ℚ) (N : ℕ)
    (hlim : cfg.limit = some N) (hN : 1 ≤ N)
    (hdur : ∀ k, durStop cfg.duration (times k) start = false) :
    ∀ (events : List FeedEvent) (g : RNG) (sent k : ℕ),
      (runLoop cfg times start events g sent k).stop = RunEnd.normal →
      cfg.burst ∣ sent →
      cfg.burst ∣ sent + orderCount (runLoop cfg times start events g sent k).lines ∧
      N ≤ sent + orderCount (runLoop cfg times start events g sent k).lines ∧
      (sent < N →
        sent + orderCount (runLoop cfg times start events g sent k).lines < N + cfg.burst) ∧
      (N ≤ sent → orderCount (runLoop cfg times start events g sent k).lines = 0) := by
  intro events
  induction events with
  | nil =>
    intro g sent k hstop hdvd
    unfold runLoop at hstop ⊢
    rw [hdur, if_neg (by simp), hlim, limStop_some hN] at hstop ⊢
    by_cases hc : N ≤ sent
    · rw [if_pos (by simpa using hc)] at hstop ⊢
      refine ⟨by simpa using hdvd, by simpa [orderCount] using hc, by omega, fun _ => rfl⟩
    · rw [if_neg (by simpa using hc)] at hstop
      simp at hstop
  | cons e rest ih =>
    intro g sent k hstop hdvd
    unfold runLoop at hstop ⊢
    rw [hdur, if_neg (by simp), hlim, limStop_some hN] at hstop ⊢
    by_cases hc : N ≤ sent
    · rw [if_pos (by simpa using hc)] at hstop ⊢
      refine ⟨by simpa using hdvd, by simpa [orderCount] using hc, by omega, fun _ => rfl⟩
    · rw [if_neg (by simpa using hc)] at hstop ⊢
      cases e with
      | closed => simp at hstop
      | malformed => simp at hstop
      | update u =>
        dsimp only at hstop ⊢
        have hstop' : (runLoop cfg times start rest
            (emitBurst cfg.burst ((u.b + u.a) / 2) g).2 (sent + cfg.burst) (k + 1)).stop
            = RunEnd.normal := hstop
        obtain ⟨ihd, ih1, ih2, ih3⟩ := ih _ (sent + cfg.burst) (k + 1) hstop'
          (hdvd.add (dvd_refl _))
        rw [orderCount_append, emitBurst_orderCount]
        refine ⟨by rw [show sent + (cfg.burst + orderCount (runLoop cfg times start rest
            (emitBurst cfg.burst ((u.b + u.a) / 2) g).2 (sent + cfg.burst) (k + 1)).lines)
            = sent + cfg.burst + orderCount (runLoop cfg times start rest
            (emitBurst cfg.burst ((u.b + u.a) / 2) g).2 (sent + cfg.burst) (k + 1)).lines
            from by omega]; exact ihd, by omega, ?_, by omega⟩
        intro hsN
        by_cases hc2 : sent + cfg.burst < N
        · have := ih2 hc2
          omega
        · have := ih3 (by omega)
          omega

end WsFeeder

namespace WsFeeder

/-! ### Claim theorems -/

/-- C3 (amended): for every emitted order, the random draws are consumed
from the single generator in the per-order order: first the side draw
(`random.random()`), then the jitter draw (`random.uniform(-8, 8)`), then
the quantity draw (`random.randint(1, 5)`); a burst of `n` orders consumes
`n` such triples in sequence, so each order gets its own side draw. -/
theorem c3_draw_order (mid : ℚ) (g : RNG) :
    (emitOrder mid g).2.log =
      g.log ++ [DrawKind.sideDraw, DrawKind.jitterDraw, DrawKind.qtyDraw] ∧
    ∀ n, (emitBurst n mid g).2.log =
      g.log ++ (List.replicate n
        [DrawKind.sideDraw, DrawKind.jitterDraw, DrawKind.qtyDraw]).flatten :=
  ⟨by rw [emitOrder_eq], fun n => emitBurst_log n mid g⟩

/-- C3 counterexample: on a concrete generator state, the draws for one
emitted order are consumed in the order side, jitter, quantity — not in the
claimed order jitter, side, quantity. -/
theorem c3_counterexample :
    (emitOrder 100 ⟨fun _ => 1 / 2, 0, []⟩).2.log =
      [DrawKind.sideDraw, DrawKind.jitterDraw, DrawKind.qtyDraw] ∧
    [DrawKind.sideDraw, DrawKind.jitterDraw, DrawKind.qtyDraw] ≠
      [DrawKind.jitterDraw, DrawKind.sideDraw, DrawKind.qtyDraw] :=
  ⟨by decide, by decide⟩

/-- C9: configuring an order-count limit of `0` (or a duration limit of
`0` seconds) behaves exactly as if that limit were not configured: Python's
truthiness test `if limit and ...` / `if duration and ...` skips the check
for `0` just as for `None`, so the whole run is unchanged. -/
theorem c9_zero_limits_ignored (b : ℕ) (l : Option ℕ) (d : Option ℚ)
    (times : ℕ → ℚ) (start : ℚ) (events : List FeedEvent) (g : RNG) :
    run ⟨b, some 0, d⟩ times start events g = run ⟨b, none, d⟩ times start events g ∧
    run ⟨b, l, some 0⟩ times start events g = run ⟨b, l, none⟩ times start events g := by
  constructor
  · unfold run
    rw [runLoop_congr ⟨b, some 0, d⟩ ⟨b, none, d⟩ times start rfl (fun _ => rfl)
      (fun s => by simp [limStop]) events g 0 0]
  · unfold run
    rw [runLoop_congr ⟨b, l, some 0⟩ ⟨b, l, none⟩ times start rfl
      (fun now => by simp [durStop]) (fun _ => rfl) events g 0 0]

/-- C4: with a fixed seed (hence a fixed raw stream) and a fixed sequence of
feed events, the run's output does not depend on the wall clock at all when
no duration limit is configured: any two executions produce the same
structured output and byte-identical rendered output. -/
theorem c4_seed_determinism (cfg : Config) (times times' : ℕ → ℚ)
    (start start' : ℚ) (events : List FeedEvent) (g : RNG)
    (hdn : cfg.duration = none) :
    run cfg times start events g = run cfg times' start' events g ∧
    renderOutput (run cfg times start events g).1 =
      renderOutput (run cfg times' start' events g).1 := by
  have h : runLoop cfg times start events g 0 0 = runLoop cfg times' start' events g 0 0 :=
    runLoop_times_indep cfg hdn times times' start start' events g 0 0 0
  constructor
  · unfold run; rw [h]
  · unfold run; rw [h]

/-- C4 witness: a concrete seeded run over one update produces the same
output under two different clocks. -/
theorem c4_witness :
    run ⟨1, some 1, none⟩ (fun _ => 0) 0 [FeedEvent.update ⟨100, 100⟩]
        ⟨fun _ => 1 / 2, 0, []⟩ =
      run ⟨1, some 1, none⟩ (fun n => (n : ℚ)) 5 [FeedEvent.update ⟨100, 100⟩]
        ⟨fun _ => 1 / 2, 0, []⟩ :=
  (c4_seed_determinism ⟨1, some 1, none⟩ (fun _ => 0) (fun n => (n : ℚ)) 0 5
    [FeedEvent.update ⟨100, 100⟩] ⟨fun _ => 1 / 2, 0, []⟩ rfl).1

end WsFeeder

namespace WsFeeder

/-- C1 (amended): the output ends with exactly one `EXIT` line only when the
loop exits through a stop condition (a configured limit being reached); when
the feed collaborator signals stream closure the exception propagates out of
the loop — the `EXIT` write after the `async with` block is not in a
`finally` — so no `EXIT` line is emitted at all. -/
theorem c1_exit_iff_normal_stop (cfg : Config) (times : ℕ → ℚ) (start : ℚ)
    (events : List FeedEvent) (g : RNG) :
    ((run cfg times start events g).2 = RunEnd.normal →
      (run cfg times start events g).1.count OutputLine.exit = 1 ∧
      (run cfg times start events g).1.getLast? = some OutputLine.exit) ∧
    ((run cfg times start events g).2 = RunEnd.streamClosed →
      (run cfg times start events g).1.count OutputLine.exit = 0) := by
  rw [run_def]
  dsimp only
  by_cases h : (runLoop cfg times start events g 0 0).stop = RunEnd.normal
  · rw [if_pos h]
    refine ⟨fun _ => ⟨?_, List.getLast?_concat _⟩, fun hc => ?_⟩
    · rw [List.count_append,
        List.count_eq_zero.mpr (runLoop_no_exit cfg times start events g 0 0)]
      rfl
    · rw [h] at hc
      cases hc
  · rw [if_neg h]
    exact ⟨fun hn => absurd hn h,
      fun _ => List.count_eq_zero.mpr (runLoop_no_exit cfg times start events g 0 0)⟩

/-- C1 counterexample: when the stream closes on the very first receive, the
output is empty — it is not the claimed single `EXIT\x0a` line. -/
theorem c1_counterexample :
    run ⟨3, none, none⟩ (fun _ => 0) 0 [FeedEvent.closed] ⟨fun _ => 1 / 2, 0, []⟩ =
      ([], RunEnd.streamClosed) ∧
    renderOutput
      (run ⟨3, none, none⟩ (fun _ => 0) 0 [FeedEvent.closed] ⟨fun _ => 1 / 2, 0, []⟩).1 ≠
      "EXIT\n" :=
  ⟨by decide, by decide⟩

/-- C1 witness: a run that stops via its count limit ends with exactly one
`EXIT` line, and a run ended by stream closure contains no `EXIT` line. -/
theorem c1_witness :
    ((run ⟨1, some 1, none⟩ (fun _ => 0) 0 [FeedEvent.update ⟨100, 100⟩]
        ⟨fun _ => 1 / 2, 0, []⟩).1.count OutputLine.exit = 1 ∧
      (run ⟨1, some 1, none⟩ (fun _ => 0) 0 [FeedEvent.update ⟨100, 100⟩]
        ⟨fun _ => 1 / 2, 0, []⟩).1.getLast? = some OutputLine.exit) ∧
    (run ⟨1, some 1, none⟩ (fun _ => 0) 0 [FeedEvent.closed]
        ⟨fun _ => 1 / 2, 0, []⟩).1.count OutputLine.exit = 0 :=
  ⟨(c1_exit_iff_normal_stop _ _ _ _ _).1 (by decide),
   (c1_exit_iff_normal_stop _ _ _ _ _).2 (by decide)⟩

/-- C7 (amended): a malformed feed message makes the decode error propagate
out of the loop uncaught, and the `EXIT` sentinel is not attempted during
the unwind (the sentinel write after the `async with` block is skipped), so
a run that ends in a decode error contains no `EXIT` line. -/
theorem c7_decode_error_no_sentinel (cfg : Config) (times : ℕ → ℚ) (start : ℚ)
    (g : RNG) (rest events : List FeedEvent) :
    (cfg.limit = none → cfg.duration = none →
      run cfg times start (FeedEvent.malformed :: rest) g = ([], RunEnd.decodeError)) ∧
    ((run cfg times start events g).2 = RunEnd.decodeError →
      OutputLine.exit ∉ (run cfg times start events g).1) := by
  constructor
  · intro hl hd
    have hloop : runLoop cfg times start (FeedEvent.malformed :: rest) g 0 0 =
        ⟨[], RunEnd.decodeError, [0], 0⟩ := by
      unfold runLoop
      rw [hd, hl]
      rfl
    rw [run_def, hloop]
    rfl
  · intro he
    rw [run_def] at he ⊢
    dsimp only at he ⊢
    rw [if_neg (by rw [he]; simp)]
    exact runLoop_no_exit cfg times start events g 0 0

/-- C7 counterexample: with a malformed first message, the run ends in a
decode error and produces no output at all — the sentinel is not attempted,
contrary to the claim. -/
theorem c7_counterexample :
    run ⟨3, none, none⟩ (fun _ => 0) 0 [FeedEvent.malformed] ⟨fun _ => 1 / 2, 0, []⟩ =
      ([], RunEnd.decodeError) ∧
    renderOutput
      (run ⟨3, none, none⟩ (fun _ => 0) 0 [FeedEvent.malformed]
        ⟨fun _ => 1 / 2, 0, []⟩).1 = "" ∧
    ("" : String) ≠ "EXIT\n" :=
  ⟨by decide, by decide, by decide⟩

/-- C7 witness: the amended statement applied to a concrete malformed-feed
run with no limits configured. -/
theorem c7_witness :
    run ⟨3, none, none⟩ (fun _ => 0) 0 (FeedEvent.malformed :: []) ⟨fun _ => 1 / 2, 0, []⟩ =
      ([], RunEnd.decodeError) ∧
    OutputLine.exit ∉
      (run ⟨3, none, none⟩ (fun _ => 0) 0 [FeedEvent.malformed]
        ⟨fun _ => 1 / 2, 0, []⟩).1 :=
  ⟨(c7_decode_error_no_sentinel ⟨3, none, none⟩ (fun _ => 0) 0
      ⟨fun _ => 1 / 2, 0, []⟩ [] []).1 rfl rfl,
   (c7_decode_error_no_sentinel ⟨3, none, none⟩ (fun _ => 0) 0
      ⟨fun _ => 1 / 2, 0, []⟩ [] [FeedEvent.malformed]).2 (by decide)⟩

end WsFeeder

namespace WsFeeder

theorem run_stop (cfg : Config) (times : ℕ → ℚ) (start : ℚ)
    (events : List FeedEvent) (g : RNG) :
    (run cfg times start events g).2 = (runLoop cfg times start events g 0 0).stop := by
  rw [run_def]

theorem run_orderCount (cfg : Config) (times : ℕ → ℚ) (start : ℚ)
    (events : List FeedEvent) (g : RNG) :
    orderCount (run cfg times start events g).1 =
      orderCount (runLoop cfg times start events g 0 0).lines := by
  rw [run_def]
  dsimp only
  split_ifs
  · rw [orderCount_append]
    rfl
  · rfl

/-- C2 (amended): with a count limit `N ≥ 1`, no duration limit, and a feed
that delivers enough updates for the run to stop normally, the number of
order lines emitted before `EXIT` is the smallest multiple of `burst` that
is at least `N` — written `burst * ((N + burst - 1) / burst)` — which equals
`N` exactly when `burst` divides `N` (the stop check runs only between
bursts, so the final burst can overshoot by up to `burst - 1` orders). -/
theorem c2_count_limit_rounds_up_to_burst (cfg : Config) (times : ℕ → ℚ)
    (start : ℚ) (events : List FeedEvent) (g : RNG) (N : ℕ)
    (hlim : cfg.limit = some N) (hN : 1 ≤ N) (hB : 1 ≤ cfg.burst)
    (hdn : cfg.duration = none)
    (hstop : (run cfg times start events g).2 = RunEnd.normal) :
    orderCount (run cfg times start events g).1 =
      cfg.burst * ((N + cfg.burst - 1) / cfg.burst) ∧
    (cfg.burst ∣ N → orderCount (run cfg times start events g).1 = N) := by
  rw [run_stop] at hstop
  rw [run_orderCount]
  obtain ⟨hdvd, h1, h2, -⟩ :=
    runLoop_count cfg times start N hlim hN (fun k => by rw [hdn]; rfl)
      events g 0 0 hstop (dvd_zero _)
  rw [Nat.zero_add] at hdvd h1 h2
  have h2' := h2 (by omega)
  obtain ⟨t, ht⟩ := hdvd
  have hq1 : t ≤ (N + cfg.burst - 1) / cfg.burst := by
    rw [Nat.le_div_iff_mul_le hB, mul_comm, ← ht]
    omega
  have hq2 : (N + cfg.burst - 1) / cfg.burst ≤ t := by
    have := (Nat.div_lt_iff_lt_mul hB).mpr
      (show N + cfg.burst - 1 < (t + 1) * cfg.burst by
        rw [add_mul, one_mul, mul_comm, ← ht]
        omega)
    omega
  have htq : t = (N + cfg.burst - 1) / cfg.burst := le_antisymm hq1 hq2
  constructor
  · rw [ht, htq]
  · rintro ⟨m, hm⟩
    have h5 : cfg.burst * t < cfg.burst * (m + 1) := by
      rw [Nat.mul_succ]
      omega
    have h6 : cfg.burst * m ≤ cfg.burst * t := by omega
    have htm1 : t < m + 1 := Nat.lt_of_mul_lt_mul_left h5
    have htm2 : m ≤ t := Nat.le_of_mul_le_mul_left h6 (by omega)
    have : t = m := by omega
    rw [ht, this, ← hm]

/-- C2 counterexample: with `limit = 2` and `burst = 3`, a single update
already yields 3 order lines before `EXIT`, not the claimed exactly 2. -/
theorem c2_counterexample :
    orderCount (run ⟨3, some 2, none⟩ (fun _ => 0) 0
      [FeedEvent.update ⟨100, 100⟩] ⟨fun _ => 1 / 2, 0, []⟩).1 = 3 ∧
    (3 : ℕ) ≠ 2 :=
  ⟨by decide, by decide⟩

/-- C2 witness: the amended count formula evaluated on the concrete
`limit = 2`, `burst = 3` run: 3 order lines are emitted. -/
theorem c2_witness :
    orderCount (run ⟨3, some 2, none⟩ (fun _ => 0) 0
        [FeedEvent.update ⟨100, 100⟩] ⟨fun _ => 1 / 2, 0, []⟩).1 =
      3 * ((2 + 3 - 1) / 3) :=
  (c2_count_limit_rounds_up_to_burst ⟨3, some 2, none⟩ (fun _ => 0) 0
    [FeedEvent.update ⟨100, 100⟩] ⟨fun _ => 1 / 2, 0, []⟩ 2
    rfl (by decide) (by decide) rfl (by decide)).1

/-- C10: for every run, the `sent` counter is an exact multiple of `burst`
at every stop-condition check (it changes only by whole bursts between
checks); consequently, when a count limit `N` ends a run normally with the
duration check never firing, the total number of order lines before `EXIT`
is the smallest multiple of `burst` that is `≥ N`: it is divisible by
`burst`, at least `N`, and less than `N + burst`. -/
theorem c10_counter_multiple_of_burst (cfg : Config) (times : ℕ → ℚ)
    (start : ℚ) (events : List FeedEvent) (g : RNG) (N : ℕ)
    (_hB : 1 ≤ cfg.burst) (hlim : cfg.limit = some N) (hN : 1 ≤ N)
    (hdur : ∀ k, durStop cfg.duration (times k) start = false)
    (hstop : (run cfg times start events g).2 = RunEnd.normal) :
    (∀ c ∈ (runLoop cfg times start events g 0 0).checks, cfg.burst ∣ c) ∧
    cfg.burst ∣ orderCount (run cfg times start events g).1 ∧
    N ≤ orderCount (run cfg times start events g).1 ∧
    orderCount (run cfg times start events g).1 < N + cfg.burst := by
  rw [run_stop] at hstop
  rw [run_orderCount]
  obtain ⟨hdvd, h1, h2, -⟩ :=
    runLoop_count cfg times start N hlim hN hdur events g 0 0 hstop (dvd_zero _)
  rw [Nat.zero_add] at hdvd h1 h2
  exact ⟨runLoop_checks cfg times start events g 0 0 (dvd_zero _),
    hdvd, h1, h2 (by omega)⟩

/-- C10 witness: on the concrete `limit = 2`, `burst = 3` run, every checked
counter value is a multiple of 3 and the emitted total is 3, the smallest
multiple of 3 that is at least 2. -/
theorem c10_witness :
    (∀ c ∈ (runLoop ⟨3, some 2, none⟩ (fun _ => 0) 0
        [FeedEvent.update ⟨100, 100⟩] ⟨fun _ => 1 / 2, 0, []⟩ 0 0).checks, 3 ∣ c) ∧
    3 ∣ orderCount (run ⟨3, some 2, none⟩ (fun _ => 0) 0
        [FeedEvent.update ⟨100, 100⟩] ⟨fun _ => 1 / 2, 0, []⟩).1 ∧
    2 ≤ orderCount (run ⟨3, some 2, none⟩ (fun _ => 0) 0
        [FeedEvent.update ⟨100, 100⟩] ⟨fun _ => 1 / 2, 0, []⟩).1 ∧
    orderCount (run ⟨3, some 2, none⟩ (fun _ => 0) 0
        [FeedEvent.update ⟨100, 100⟩] ⟨fun _ => 1 / 2, 0, []⟩).1 < 2 + 3 :=
  c10_counter_multiple_of_burst ⟨3, some 2, none⟩ (fun _ => 0) 0
    [FeedEvent.update ⟨100, 100⟩] ⟨fun _ => 1 / 2, 0, []⟩ 2
    (by decide) rfl (by decide) (fun _ => rfl) (by decide)

end WsFeeder

namespace WsFeeder

/-- Concrete evaluation of a one-update run with the constant raw stream
`1/2`: mid-price 100, jitter 0, so the single order is `SELL 100 3`. -/
theorem sampleRunA :
    run ⟨1, some 1, none⟩ (fun _ => 0) 0 [FeedEvent.update ⟨100, 100⟩]
      ⟨fun _ => 1 / 2, 0, []⟩ =
    ([OutputLine.order Side.sell 100 3, OutputLine.exit], RunEnd.normal) := by
  have hprice : pyRound2 (100 : ℚ) = 100 := by
    norm_num [pyRound2, pyRoundInt]
  simp only [run, runLoop, emitBurst, emitOrder_eq, durStop, limStop]
  norm_num [hprice, Int.toNat_ofNat]
  all_goals decide

/-- Concrete evaluation of a one-update run with the constant raw stream
`0` on the tiny positive quote `0.001/0.001`: the price rounds to `0`. -/
theorem sampleRunZ :
    run ⟨1, some 1, none⟩ (fun _ => 0) 0 [FeedEvent.update ⟨1 / 1000, 1 / 1000⟩]
      ⟨fun _ => 0, 0, []⟩ =
    ([OutputLine.order Side.buy 0 1, OutputLine.exit], RunEnd.normal) := by
  have hprice : pyRound2 ((1249 : ℚ) / 1250000) = 0 := by
    norm_num [pyRound2, pyRoundInt]
  simp only [run, runLoop, emitBurst, emitOrder_eq, durStop, limStop]
  norm_num [hprice, Int.toNat_ofNat]

/-- The source's float rendering of the price `100.0` drops the trailing
zero. -/
theorem renderPrice_100 : renderPrice (100 : ℚ) = "100.0" := by
  norm_num [renderPrice, Int.toNat_ofNat]
  all_goals decide

/-- The spec's exactly-two-digit rendering of the price `100.0`. -/
theorem renderPriceSpec_100 : renderPriceSpec (100 : ℚ) = "100.00" := by
  norm_num [renderPriceSpec, Int.toNat_ofNat]
  all_goals decide

theorem pyRound2_jitter_pos (mid j : ℚ) (hmid : 1 / 100 ≤ mid)
    (hj1 : -8 ≤ j) (_hj2 : j ≤ 8) :
    0 < pyRound2 (mid * (1 + j / 10000)) := by
  apply pyRound2_pos
  nlinarith [mul_nonneg (by linarith : (0 : ℚ) ≤ mid - 1 / 100)
    (by linarith : (0 : ℚ) ≤ 1 + j / 10000 - 9992 / 10000)]

/-- C6: every emitted order's price is the producing update's mid-price
scaled by a jitter factor within ±8 basis points and rounded to 2 decimal
places; hence it lies within ±8 basis points of the mid-price up to the
rounding error of half a cent, and its quantity is an integer in `[1, 5]`. -/
theorem c6_price_within_jitter_of_mid (cfg : Config) (times : ℕ → ℚ)
    (start : ℚ) (events : List FeedEvent) (g : RNG) (hg : g.Valid)
    (s : Side) (p : ℚ) (q : ℕ)
    (hmem : OutputLine.order s p q ∈ (run cfg times start events g).1) :
    ∃ u, FeedEvent.update u ∈ events ∧
      (∃ j, -8 ≤ j ∧ j ≤ 8 ∧
        p = pyRound2 ((u.b + u.a) / 2 * (1 + j / 10000))) ∧
      |p - (u.b + u.a) / 2| ≤ |(u.b + u.a) / 2| * (8 / 10000) + 1 / 200 ∧
      1 ≤ q ∧ q ≤ 5 := by
  obtain ⟨u, hu, s', j, q', heq, hj1, hj2, hq1, hq2⟩ :=
    runLoop_spec cfg times start events g 0 0 hg _ (mem_run_order hmem)
  injection heq with hs hp hq
  subst hp
  subst hq
  refine ⟨u, hu, ⟨j, hj1, hj2, rfl⟩, ?_, hq1, hq2⟩
  set m := (u.b + u.a) / 2 with hm
  set x := m * (1 + j / 10000) with hx
  have h1 : |pyRound2 x - x| ≤ 1 / 200 := pyRound2_bounds x
  have h2 : |x - m| = |m| * |j| / 10000 := by
    have hxm : x - m = m * j / 10000 := by rw [hx]; ring
    rw [hxm, abs_div, abs_mul]
    norm_num
  have hjb : |j| ≤ 8 := abs_le.mpr ⟨hj1, hj2⟩
  have h3 : |m| * |j| ≤ |m| * 8 := mul_le_mul_of_nonneg_left hjb (abs_nonneg m)
  have h4 := abs_sub_le (pyRound2 x) x m
  rw [h2] at h4
  linarith

/-- C6 witness: the theorem applied to a concrete single-update run whose
emitted order is `SELL 100 3`. -/
theorem c6_witness :
    ∃ u, FeedEvent.update u ∈ [FeedEvent.update (⟨100, 100⟩ : PriceUpdate)] ∧
      (∃ j, -8 ≤ j ∧ j ≤ 8 ∧
        (100 : ℚ) = pyRound2 ((u.b + u.a) / 2 * (1 + j / 10000))) ∧
      |(100 : ℚ) - (u.b + u.a) / 2| ≤ |(u.b + u.a) / 2| * (8 / 10000) + 1 / 200 ∧
      1 ≤ 3 ∧ 3 ≤ 5 :=
  c6_price_within_jitter_of_mid ⟨1, some 1, none⟩ (fun _ => 0) 0
    [FeedEvent.update ⟨100, 100⟩] ⟨fun _ => 1 / 2, 0, []⟩
    (fun _ => ⟨by norm_num, by norm_num⟩) Side.sell 100 3
    (by rw [sampleRunA]; simp)

/-- C8 (amended): whenever every delivered update has positive best bid and
best ask and a mid-price of at least one cent (`0.01`), every emitted
order's price is strictly positive (a tiny positive mid-price can round to
`0.0`, which the counterexample exhibits); every quantity lies in
`{1,…,5}`; every side is `BUY` or `SELL`; and the side draw is made once
per order — a burst of `n` orders consumes `n` separate side draws — not
once per burst. -/
theorem c8_order_invariants (cfg : Config) (times : ℕ → ℚ) (start : ℚ)
    (events : List FeedEvent) (g : RNG) (hg : g.Valid)
    (hmid : ∀ u, FeedEvent.update u ∈ events →
      0 < u.b ∧ 0 < u.a ∧ 1 / 100 ≤ (u.b + u.a) / 2) :
    (∀ (s : Side) (p : ℚ) (q : ℕ),
      OutputLine.order s p q ∈ (run cfg times start events g).1 →
      0 < p ∧ 1 ≤ q ∧ q ≤ 5 ∧ (s = Side.buy ∨ s = Side.sell)) ∧
    (∀ (n : ℕ) (mid : ℚ) (h : RNG),
      (emitBurst n mid h).2.log =
        h.log ++ (List.replicate n
          [DrawKind.sideDraw, DrawKind.jitterDraw, DrawKind.qtyDraw]).flatten) := by
  refine ⟨?_, fun n mid h => emitBurst_log n mid h⟩
  intro s p q hmem
  obtain ⟨u, hu, s', j, q', heq, hj1, hj2, hq1, hq2⟩ :=
    runLoop_spec cfg times start events g 0 0 hg _ (mem_run_order hmem)
  injection heq with hs hp hq
  subst hp
  subst hq
  refine ⟨pyRound2_jitter_pos _ j (hmid u hu).2.2 hj1 hj2, hq1, hq2, ?_⟩
  cases s
  · exact Or.inl rfl
  · exact Or.inr rfl

/-- C8 counterexample: with best bid and best ask both the positive value
`0.001`, the emitted order's price is exactly `0`, refuting the claimed
invariant `price > 0` for all positive inputs. -/
theorem c8_counterexample :
    (0 : ℚ) < 1 / 1000 ∧
    (run ⟨1, some 1, none⟩ (fun _ => 0) 0
        [FeedEvent.update ⟨1 / 1000, 1 / 1000⟩] ⟨fun _ => 0, 0, []⟩).1 =
      [OutputLine.order Side.buy 0 1, OutputLine.exit] ∧
    ¬ (0 : ℚ) < 0 :=
  ⟨by norm_num, by rw [sampleRunZ], by norm_num⟩

/-- C8 witness: the amended invariants evaluated on a concrete run over one
update with mid-price 100. -/
theorem c8_witness :
    (∀ (s : Side) (p : ℚ) (q : ℕ),
      OutputLine.order s p q ∈ (run ⟨1, some 1, none⟩ (fun _ => 0) 0
        [FeedEvent.update ⟨100, 100⟩] ⟨fun _ => 1 / 2, 0, []⟩).1 →
      0 < p ∧ 1 ≤ q ∧ q ≤ 5 ∧ (s = Side.buy ∨ s = Side.sell)) ∧
    (∀ (n : ℕ) (mid : ℚ) (h : RNG),
      (emitBurst n mid h).2.log =
        h.log ++ (List.replicate n
          [DrawKind.sideDraw, DrawKind.jitterDraw, DrawKind.qtyDraw]).flatten) :=
  c8_order_invariants ⟨1, some 1, none⟩ (fun _ => 0) 0
    [FeedEvent.update ⟨100, 100⟩] ⟨fun _ => 1 / 2, 0, []⟩
    (fun _ => ⟨by norm_num, by norm_num⟩)
    (fun u hu => by
      simp only [List.mem_singleton, FeedEvent.update.injEq] at hu
      subst hu
      refine ⟨by norm_num, by norm_num, by norm_num⟩)

end WsFeeder

namespace WsFeeder

theorem renderPrice_shape (p : ℚ) (hp : 0 ≤ p) :
    ∃ (w : ℕ) (f : String), renderPrice p = toString w ++ "." ++ f ∧
      1 ≤ f.length ∧ f.length ≤ 2 := by
  unfold renderPrice
  rw [if_neg (not_lt.mpr hp)]
  dsimp only
  split_ifs with h1 h2 h3
  · exact ⟨_, "0", rfl, by show (1 : ℕ) ≤ 1; decide, by show (1 : ℕ) ≤ 2; decide⟩
  · exact ⟨_, _, rfl, by show (1 : ℕ) ≤ 1; decide, by show (1 : ℕ) ≤ 2; decide⟩
  · exact ⟨_, _, rfl, by show (1 : ℕ) ≤ 2; decide, by show (2 : ℕ) ≤ 2; decide⟩
  · exact ⟨_, _, rfl, by show (1 : ℕ) ≤ 2; decide, by show (2 : ℕ) ≤ 2; decide⟩

/-- C5 (amended): every line written to stdout is either the final
`EXIT` line or an order line `<SIDE> <PRICE> <QUANTITY>` with
`SIDE ∈ {BUY, SELL}` and `QUANTITY` a bare integer in `[1, 5]`; `PRICE` is
an exact multiple of `0.01`, but it is rendered with Python's default float
formatting — a nonnegative price prints with at least one and at most two
fractional digits, trailing zeros dropped — not always with exactly two
fractional digits. -/
theorem c5_line_format (cfg : Config) (times : ℕ → ℚ) (start : ℚ)
    (events : List FeedEvent) (g : RNG) (hg : g.Valid) :
    ∀ l ∈ (run cfg times start events g).1,
      renderLine l = "EXIT\n" ∨
      ∃ (s : Side) (p : ℚ) (q : ℕ), l = OutputLine.order s p q ∧
        renderLine l =
          Side.render s ++ " " ++ renderPrice p ++ " " ++ toString q ++ "\n" ∧
        (Side.render s = "BUY" ∨ Side.render s = "SELL") ∧
        1 ≤ q ∧ q ≤ 5 ∧
        (∃ m : ℤ, p = (m : ℚ) / 100) ∧
        (0 ≤ p → ∃ (w : ℕ) (f : String),
          renderPrice p = toString w ++ "." ++ f ∧
          1 ≤ f.length ∧ f.length ≤ 2) := by
  intro l hl
  cases l with
  | exit => exact Or.inl rfl
  | order s p q =>
    right
    obtain ⟨u, hu, s', j, q', heq, hj1, hj2, hq1, hq2⟩ :=
      runLoop_spec cfg times start events g 0 0 hg _ (mem_run_order hl)
    injection heq with hs hp hq
    subst hp
    subst hq
    refine ⟨s, _, q, rfl, rfl, ?_, hq1, hq2,
      ⟨pyRoundInt ((u.b + u.a) / 2 * (1 + j / 10000) * 100), rfl⟩,
      fun hp0 => renderPrice_shape _ hp0⟩
    cases s
    · exact Or.inl rfl
    · exact Or.inr rfl

/-- C5 counterexample: the run of scenario B emits the bytes
`SELL 100.0 3` — the price `100.0` rendered with one fractional digit —
while the claimed format with exactly two fractional digits would be
`SELL 100.00 3`. -/
theorem c5_counterexample :
    renderOutput (run ⟨1, some 1, none⟩ (fun _ => 0) 0
        [FeedEvent.update ⟨100, 100⟩] ⟨fun _ => 1 / 2, 0, []⟩).1 =
      "SELL 100.0 3\nEXIT\n" ∧
    Side.render Side.sell ++ " " ++ renderPriceSpec 100 ++ " " ++
        toString (3 : ℕ) ++ "\n" = "SELL 100.00 3\n" ∧
    ("SELL 100.0 3\nEXIT\n" : String) ≠ "SELL 100.00 3\nEXIT\n" := by
  refine ⟨?_, ?_, by decide⟩
  · rw [sampleRunA]
    dsimp only
    simp only [renderOutput, List.map, renderLine]
    rw [renderPrice_100]
    decide
  · rw [renderPriceSpec_100]
    decide

/-- C5 witness: the amended format statement applied to the concrete order
line `SELL 100 3` of the scenario-B run. -/
theorem c5_witness :
    renderLine (OutputLine.order Side.sell 100 3) = "EXIT\n" ∨
    ∃ (s : Side) (p : ℚ) (q : ℕ),
      OutputLine.order Side.sell 100 3 = OutputLine.order s p q ∧
      renderLine (OutputLine.order Side.sell 100 3) =
        Side.render s ++ " " ++ renderPrice p ++ " " ++ toString q ++ "\n" ∧
      (Side.render s = "BUY" ∨ Side.render s = "SELL") ∧
      1 ≤ q ∧ q ≤ 5 ∧
      (∃ m : ℤ, p = (m : ℚ) / 100) ∧
      (0 ≤ p → ∃ (w : ℕ) (f : String),
        renderPrice p = toString w ++ "." ++ f ∧
        1 ≤ f.length ∧ f.length ≤ 2) :=
  c5_line_format ⟨1, some 1, none⟩ (fun _ => 0) 0 [FeedEvent.update ⟨100, 100⟩]
    ⟨fun _ => 1 / 2, 0, []⟩ (fun _ => ⟨by norm_num, by norm_num⟩)
    (OutputLine.order Side.sell 100 3) (by rw [sampleRunA]; simp)

end WsFeeder
